import Mathlib

/-!
Verification of the core logic of the stock-news notification bot: the
deduplication/change-detection cache (`cache_manager.py`), the two-source
merge (`api_client.py`), the breaking/important classifier (`api_client.py`),
the report selection pipeline (`discord_bot/report_scheduler.py`) and the
market-data stale-fallback (`market_data.py`).

Python strings are modelled as Lean `String`s; `md5` over the JSON
serialization is modelled injectively (two hashes are equal exactly when the
serialized payloads are equal), which is the working assumption of the code
itself.  Python dict lookups with `.get` defaults appear as `Option` fields or
as the default value directly, matching how each call site uses them.
-/

/-- Does `needle` occur at the very start of `hay`?  Helper for the Python
substring operator. -/
def charsStart : List Char → List Char → Bool
  | [], _ => true
  | _ :: _, [] => false
  | a :: as, b :: bs => a == b && charsStart as bs

/-- Python `needle in hay` on character lists. -/
def charsContain (needle : List Char) : List Char → Bool
  | [] => needle.isEmpty
  | c :: rest => charsStart needle (c :: rest) || charsContain needle rest

/-- Python `needle in hay` for strings: substring containment. -/
def containsStr (needle hay : String) : Bool :=
  charsContain needle.data hay.data

/-- Code-point lexicographic comparison of character lists; Python compares
strings this way. -/
def charsLe : List Char → List Char → Bool
  | [], _ => true
  | _ :: _, [] => false
  | a :: as, b :: bs =>
    if a.toNat < b.toNat then true
    else if b.toNat < a.toNat then false
    else charsLe as bs

/-- Python `a <= b` on strings (code-point lexicographic order). -/
def strLe (a b : String) : Bool := charsLe a.data b.data

theorem charsLe_total : ∀ l1 l2 : List Char, charsLe l1 l2 = true ∨ charsLe l2 l1 = true := by
  intro l1
  induction l1 with
  | nil => intro l2; left; rfl
  | cons a as ih =>
    intro l2
    cases l2 with
    | nil => right; rfl
    | cons b bs =>
      by_cases h1 : a.toNat < b.toNat
      · left; simp [charsLe, h1]
      · by_cases h2 : b.toNat < a.toNat
        · right; simp [charsLe, h2, h1]
        · rcases ih bs with h | h
          · left; simp [charsLe, h1, h2, h]
          · right; simp [charsLe, h1, h2, h]

theorem char_eq_of_toNat_eq {a b : Char} (h : a.toNat = b.toNat) : a = b :=
  Char.ext (UInt32.ext h)

theorem charsLe_trans :
    ∀ l1 l2 l3 : List Char,
      charsLe l1 l2 = true → charsLe l2 l3 = true → charsLe l1 l3 = true := by
  intro l1
  induction l1 with
  | nil => intro l2 l3 _ _; rfl
  | cons a as ih =>
    intro l2 l3 h12 h23
    cases l2 with
    | nil => simp [charsLe] at h12
    | cons b bs =>
      cases l3 with
      | nil => simp [charsLe] at h23
      | cons c cs =>
        rcases Nat.lt_trichotomy a.toNat b.toNat with hab | hab | hab
        · rcases Nat.lt_trichotomy b.toNat c.toNat with hbc | hbc | hbc
          · simp [charsLe, Nat.lt_trans hab hbc]
          · rw [hbc] at hab; simp [charsLe, hab]
          · simp [charsLe, Nat.lt_asymm hbc, hbc] at h23
        · have hb : a = b := char_eq_of_toNat_eq hab
          subst hb
          simp [charsLe, Nat.lt_irrefl] at h12
          rcases Nat.lt_trichotomy a.toNat c.toNat with hac | hac | hac
          · simp [charsLe, hac]
          · have hc : a = c := char_eq_of_toNat_eq hac
            subst hc
            simp [charsLe, Nat.lt_irrefl] at h23
            simp [charsLe, Nat.lt_irrefl, ih bs cs h12 h23]
          · simp [charsLe, Nat.lt_asymm hac, hac] at h23
        · simp [charsLe, Nat.lt_asymm hab, hab] at h12

theorem charsLe_antisymm :
    ∀ l1 l2 : List Char, charsLe l1 l2 = true → charsLe l2 l1 = true → l1 = l2 := by
  intro l1
  induction l1 with
  | nil =>
    intro l2 _ h21
    cases l2 with
    | nil => rfl
    | cons b bs => simp [charsLe] at h21
  | cons a as ih =>
    intro l2 h12 h21
    cases l2 with
    | nil => simp [charsLe] at h12
    | cons b bs =>
      rcases Nat.lt_trichotomy a.toNat b.toNat with hab | hab | hab
      · simp [charsLe, Nat.lt_asymm hab, hab] at h21
      · have hb : a = b := char_eq_of_toNat_eq hab
        subst hb
        simp [charsLe, Nat.lt_irrefl] at h12 h21
        rw [ih bs h12 h21]
      · simp [charsLe, Nat.lt_asymm hab, hab] at h12

theorem strLe_total (a b : String) : strLe a b = true ∨ strLe b a = true :=
  charsLe_total a.data b.data

theorem strLe_trans (a b c : String) (h1 : strLe a b = true) (h2 : strLe b c = true) :
    strLe a c = true :=
  charsLe_trans a.data b.data c.data h1 h2

theorem strLe_antisymm (a b : String) (h1 : strLe a b = true) (h2 : strLe b a = true) :
    a = b := by
  cases a with
  | mk da =>
    cases b with
    | mk db =>
      have : da = db := charsLe_antisymm da db h1 h2
      rw [this]

/-!
## Data model of `cache_manager.py` and `api_client.py` items

A news item as the cache and merge code sees it: a JSON object accessed with
`.get`, so every field is optional.  `source_api` models the `_source_api`
key that `NewsAPIClient.fetch_news` stamps on each merged item.
-/

structure Post where
  id : Option String
  title : Option String
  content : Option String
  created_at : Option String
  source_api : Option String
deriving DecidableEq

/-- The reduction performed by `_generate_response_hash`: each item is cut
down to its `id`, `title`, `content` and `created_at`. -/
structure RPost where
  id : Option String
  title : Option String
  content : Option String
  created_at : Option String
deriving DecidableEq

def reducePost (p : Post) : RPost :=
  ⟨p.id, p.title, p.content, p.created_at⟩

/-- The Python sort key `x.get('id', '')`; in the branch where the sort
actually runs on two or more items every `id` is a string (see
`generateResponseHash`), so the default is inert. -/
def idKey (r : RPost) : String := r.id.getD ""

def rpostLe (a b : RPost) : Prop := strLe (idKey a) (idKey b) = true

instance : DecidableRel rpostLe := fun _ _ => instDecidableEqBool _ _

instance : IsTotal RPost rpostLe := ⟨fun a b => strLe_total (idKey a) (idKey b)⟩

instance : IsTrans RPost rpostLe :=
  ⟨fun a b c h1 h2 => strLe_trans (idKey a) (idKey b) (idKey c) h1 h2⟩

/-- Python's `list.sort(key=...)` is a stable sort by key; `List.insertionSort`
with a reflexive-on-equal-keys relation has exactly that behaviour. -/
def sortPostsById (l : List RPost) : List RPost := List.insertionSort rpostLe l

/-- Result of `_generate_response_hash`.  `ok items` stands for the md5 hex
digest of the JSON serialization of the sorted, reduced item list (md5 is
modelled injectively); `err` stands for the `""` the `except` branch returns
when `list.sort` raises a `TypeError`, which happens exactly when the batch
has at least two items and some item's `id` is `None` (a `None` sort key is
unorderable in Python 3, and with two or more items at least one key
comparison occurs). -/
inductive HashVal where
  | err
  | ok (items : List RPost)
deriving DecidableEq

/-- Shallow embedding of `NewsCacheManager._generate_response_hash`. -/
def generateResponseHash (posts : List Post) : HashVal :=
  if decide (2 ≤ posts.length) && posts.any (fun p => p.id.isNone) then HashVal.err
  else HashVal.ok (sortPostsById (posts.map reducePost))

/-- In-memory state of the seen-id cache (`news_cache.json`): the seen-id set
is modelled as the list of inserted ids (only membership is ever used). -/
structure NewsCache where
  news_ids : List String
  total_processed : Nat
deriving DecidableEq

/-- Shallow embedding of `NewsCacheManager.get_new_news`: walk the batch in
order; an item whose `id` is truthy (present and nonempty) and not yet seen is
appended to the result, its id added to the seen set and the counter bumped;
everything else is skipped.  Returns the new items and the updated cache. -/
def getNewNews : NewsCache → List Post → List Post × NewsCache
  | c, [] => ([], c)
  | c, p :: rest =>
    match p.id with
    | none => getNewNews c rest
    | some s =>
      if s = "" then getNewNews c rest
      else if s ∈ c.news_ids then getNewNews c rest
      else
        let r := getNewNews ⟨s :: c.news_ids, c.total_processed + 1⟩ rest
        (p :: r.1, r.2)

/-- In-memory state of `last_response.json` (the timestamp field is ignored:
no logic reads it). -/
structure LastResponse where
  response_hash : Option HashVal
  news_count : Nat
deriving DecidableEq

/-- Shallow embedding of `NewsCacheManager.has_response_changed`: compare the
fresh hash against the stored one; on a difference store the fresh hash and
the batch size and report `true`. -/
def hasResponseChanged (lr : LastResponse) (posts : List Post) : Bool × LastResponse :=
  if some (generateResponseHash posts) = lr.response_hash then (false, lr)
  else (true, ⟨some (generateResponseHash posts), posts.length⟩)

/-!
## C1: order-independence of the batch fingerprint
-/

/-- Two sorted lists that are permutations of each other coincide when the
sort key is injective on their members. -/
theorem sorted_unique_key_eq :
    ∀ l1 l2 : List RPost, l1.Perm l2 →
      l1.Pairwise rpostLe → l2.Pairwise rpostLe →
      (∀ x ∈ l1, ∀ y ∈ l1, idKey x = idKey y → x = y) →
      l1 = l2 := by
  intro l1
  induction l1 with
  | nil =>
    intro l2 hp _ _ _
    exact (hp.symm.eq_nil).symm
  | cons x xs ih =>
    intro l2 hp hs1 hs2 hinj
    cases l2 with
    | nil => exact absurd hp.eq_nil (List.cons_ne_nil x xs)
    | cons y ys =>
      have hxy : x = y := by
        have hx2 : x ∈ y :: ys := hp.mem_iff.mp (List.mem_cons_self x xs)
        have hy1 : y ∈ x :: xs := hp.symm.mem_iff.mp (List.mem_cons_self y ys)
        rcases List.mem_cons.mp hx2 with h | hxys
        · exact h
        rcases List.mem_cons.mp hy1 with h | hyxs
        · exact h.symm
        have h1 : rpostLe x y := (List.pairwise_cons.mp hs1).1 y hyxs
        have h2 : rpostLe y x := (List.pairwise_cons.mp hs2).1 x hxys
        have hkey : idKey x = idKey y := strLe_antisymm _ _ h1 h2
        exact hinj x (List.mem_cons_self x xs) y (List.mem_cons.mpr (Or.inr hyxs)) hkey
      subst hxy
      have hp' := hp.cons_inv
      have h1 := (List.pairwise_cons.mp hs1).2
      have h2 := (List.pairwise_cons.mp hs2).2
      have hinj' : ∀ a ∈ xs, ∀ b ∈ xs, idKey a = idKey b → a = b := fun a ha b hb =>
        hinj a (List.mem_cons.mpr (Or.inr ha)) b (List.mem_cons.mpr (Or.inr hb))
      rw [ih ys hp' h1 h2 hinj']

theorem sortPostsById_eq_of_perm (l1 l2 : List RPost) (hperm : l1.Perm l2)
    (hinj : ∀ x ∈ l1, ∀ y ∈ l1, idKey x = idKey y → x = y) :
    sortPostsById l1 = sortPostsById l2 := by
  apply sorted_unique_key_eq
  · exact (List.perm_insertionSort rpostLe l1).trans
      (hperm.trans (List.perm_insertionSort rpostLe l2).symm)
  · exact List.sorted_insertionSort rpostLe l1
  · exact List.sorted_insertionSort rpostLe l2
  · intro a ha b hb
    exact hinj a ((List.perm_insertionSort rpostLe l1).mem_iff.mp ha)
      b ((List.perm_insertionSort rpostLe l1).mem_iff.mp hb)

/-- A permutation of the reduced batches preserves whether some raw item has a
missing `id` (the reduction keeps the `id` field). -/
theorem any_isNone_eq_of_perm {B1 B2 : List Post}
    (hperm : (B1.map reducePost).Perm (B2.map reducePost)) :
    (B1.any fun p => p.id.isNone) = (B2.any fun p => p.id.isNone) := by
  rw [Bool.eq_iff_iff, List.any_eq_true, List.any_eq_true]
  constructor
  · rintro ⟨p, hp, hnone⟩
    rcases List.mem_map.mp (hperm.mem_iff.mp (List.mem_map_of_mem reducePost hp)) with
      ⟨q, hq, hqr⟩
    exact ⟨q, hq, by rw [show q.id = p.id from congrArg RPost.id hqr]; exact hnone⟩
  · rintro ⟨p, hp, hnone⟩
    rcases List.mem_map.mp (hperm.symm.mem_iff.mp (List.mem_map_of_mem reducePost hp)) with
      ⟨q, hq, hqr⟩
    exact ⟨q, hq, by rw [show q.id = p.id from congrArg RPost.id hqr]; exact hnone⟩

/-- C1 (amended): the batch fingerprint computed by `_generate_response_hash`
is order-independent for batches with the same reduced items, provided no two
distinct reduced items share an identifier — items are sorted by identifier
before serialization, so permuting the batch cannot change the serialized
payload when the sort key determines the item. -/
theorem response_hash_order_independent (B1 B2 : List Post)
    (hperm : (B1.map reducePost).Perm (B2.map reducePost))
    (hinj : ∀ x ∈ B1.map reducePost, ∀ y ∈ B1.map reducePost, idKey x = idKey y → x = y) :
    generateResponseHash B1 = generateResponseHash B2 := by
  have hlen : B1.length = B2.length := by
    have h := hperm.length_eq
    simpa using h
  have hany : (B1.any fun p => p.id.isNone) = (B2.any fun p => p.id.isNone) :=
    any_isNone_eq_of_perm hperm
  unfold generateResponseHash
  rw [hlen, hany]
  by_cases h : (decide (2 ≤ B2.length) && B2.any fun p => p.id.isNone) = true
  · rw [if_pos h, if_pos h]
  · rw [if_neg h, if_neg h]
    exact congrArg HashVal.ok (sortPostsById_eq_of_perm _ _ hperm hinj)

/-- Witness for `response_hash_order_independent` at a concrete two-item batch
with distinct identifiers. -/
theorem response_hash_order_independent_witness :
    generateResponseHash
        [⟨some "b", some "t1", none, none, none⟩, ⟨some "a", some "t2", none, none, none⟩]
      = generateResponseHash
        [⟨some "a", some "t2", none, none, none⟩, ⟨some "b", some "t1", none, none, none⟩] :=
  response_hash_order_independent _ _ (by decide) (by decide)

/-- C1 counterexample: two batches holding the same two reduced items — the
items share the identifier `"a"` but differ in `title` — in opposite orders
fingerprint differently, because the stable sort by identifier leaves items
with equal identifiers in their input order and the serialized payloads
therefore differ. -/
theorem response_hash_not_order_independent :
    ((([⟨some "a", some "t1", none, none, none⟩, ⟨some "a", some "t2", none, none, none⟩] :
        List Post).map reducePost).Perm
      (([⟨some "a", some "t2", none, none, none⟩, ⟨some "a", some "t1", none, none, none⟩] :
        List Post).map reducePost)) ∧
    generateResponseHash
        [⟨some "a", some "t1", none, none, none⟩, ⟨some "a", some "t2", none, none, none⟩]
      ≠ generateResponseHash
        [⟨some "a", some "t2", none, none, none⟩, ⟨some "a", some "t1", none, none, none⟩] := by
  constructor
  · decide
  · decide

/-!
## C2 and C10: properties of `get_new_news`
-/

theorem getNewNews_ids_superset :
    ∀ (ps : List Post) (c : NewsCache) (s : String),
      s ∈ c.news_ids → s ∈ (getNewNews c ps).2.news_ids := by
  intro ps
  induction ps with
  | nil => intro c s hs; simpa [getNewNews] using hs
  | cons p rest ih =>
    intro c s hs
    cases hid : p.id with
    | none => simpa [getNewNews, hid] using ih c s hs
    | some t =>
      by_cases ht : t = ""
      · simpa [getNewNews, hid, ht] using ih c s hs
      · by_cases hmem : t ∈ c.news_ids
        · simpa [getNewNews, hid, ht, hmem] using ih c s hs
        · have h := ih ⟨t :: c.news_ids, c.total_processed + 1⟩ s (List.mem_cons.mpr (Or.inr hs))
          simpa [getNewNews, hid, ht, hmem] using h

theorem getNewNews_covers :
    ∀ (ps : List Post) (c : NewsCache) (p : Post) (s : String),
      p ∈ ps → p.id = some s → s ≠ "" → s ∈ (getNewNews c ps).2.news_ids := by
  intro ps
  induction ps with
  | nil => intro c p s hp _ _; exact absurd hp (List.not_mem_nil p)
  | cons q rest ih =>
    intro c p s hp hid hs
    rcases List.mem_cons.mp hp with hq | hrest
    · subst hq
      by_cases hmem : s ∈ c.news_ids
      · have h := getNewNews_ids_superset rest c s hmem
        simpa [getNewNews, hid, hs, hmem] using h
      · have h := getNewNews_ids_superset rest ⟨s :: c.news_ids, c.total_processed + 1⟩ s
          (List.mem_cons_self s c.news_ids)
        simpa [getNewNews, hid, hs, hmem] using h
    · cases hqid : q.id with
      | none => simpa [getNewNews, hqid] using ih c p s hrest hid hs
      | some t =>
        by_cases ht : t = ""
        · simpa [getNewNews, hqid, ht] using ih c p s hrest hid hs
        · by_cases hmem : t ∈ c.news_ids
          · simpa [getNewNews, hqid, ht, hmem] using ih c p s hrest hid hs
          · have h := ih ⟨t :: c.news_ids, c.total_processed + 1⟩ p s hrest hid hs
            simpa [getNewNews, hqid, ht, hmem] using h

theorem getNewNews_fst_nil :
    ∀ (ps : List Post) (c : NewsCache),
      (∀ p ∈ ps, ∀ s, p.id = some s → s ≠ "" → s ∈ c.news_ids) →
      (getNewNews c ps).1 = [] := by
  intro ps
  induction ps with
  | nil => intro c _; simp [getNewNews]
  | cons p rest ih =>
    intro c h
    have hrest : ∀ q ∈ rest, ∀ s, q.id = some s → s ≠ "" → s ∈ c.news_ids := fun q hq =>
      h q (List.mem_cons.mpr (Or.inr hq))
    cases hid : p.id with
    | none => simpa [getNewNews, hid] using ih c hrest
    | some t =>
      by_cases ht : t = ""
      · simpa [getNewNews, hid, ht] using ih c hrest
      · have hmem : t ∈ c.news_ids := h p (List.mem_cons_self p rest) t hid ht
        simpa [getNewNews, hid, ht, hmem] using ih c hrest

theorem getNewNews_sublist :
    ∀ (ps : List Post) (c : NewsCache), (getNewNews c ps).1.Sublist ps := by
  intro ps
  induction ps with
  | nil => intro c; simp [getNewNews]
  | cons p rest ih =>
    intro c
    cases hid : p.id with
    | none =>
      have h := (ih c).cons p
      simpa [getNewNews, hid] using h
    | some t =>
      by_cases ht : t = ""
      · have h := (ih c).cons p
        simpa [getNewNews, hid, ht] using h
      · by_cases hmem : t ∈ c.news_ids
        · have h := (ih c).cons p
          simpa [getNewNews, hid, ht, hmem] using h
        · have h := (ih ⟨t :: c.news_ids, c.total_processed + 1⟩).cons₂ p
          simpa [getNewNews, hid, ht, hmem] using h

theorem getNewNews_mem_new :
    ∀ (ps : List Post) (c : NewsCache) (x : Post),
      x ∈ (getNewNews c ps).1 → ∃ s, x.id = some s ∧ s ≠ "" ∧ s ∉ c.news_ids := by
  intro ps
  induction ps with
  | nil => intro c x hx; simp [getNewNews] at hx
  | cons p rest ih =>
    intro c x hx
    cases hid : p.id with
    | none =>
      rw [show getNewNews c (p :: rest) = getNewNews c rest by simp [getNewNews, hid]] at hx
      exact ih c x hx
    | some t =>
      by_cases ht : t = ""
      · rw [show getNewNews c (p :: rest) = getNewNews c rest by simp [getNewNews, hid, ht]] at hx
        exact ih c x hx
      · by_cases hmem : t ∈ c.news_ids
        · rw [show getNewNews c (p :: rest) = getNewNews c rest by
            simp [getNewNews, hid, ht, hmem]] at hx
          exact ih c x hx
        · have hx' : x = p ∨ x ∈ (getNewNews ⟨t :: c.news_ids, c.total_processed + 1⟩ rest).1 := by
            have : (getNewNews c (p :: rest)).1
                = p :: (getNewNews ⟨t :: c.news_ids, c.total_processed + 1⟩ rest).1 := by
              simp [getNewNews, hid, ht, hmem]
            rw [this] at hx
            exact List.mem_cons.mp hx
          rcases hx' with hxp | hxr
          · exact ⟨t, by rw [hxp]; exact hid, ht, hmem⟩
          · rcases ih ⟨t :: c.news_ids, c.total_processed + 1⟩ x hxr with ⟨s, hsid, hs, hsmem⟩
            exact ⟨s, hsid, hs, fun hc => hsmem (List.mem_cons.mpr (Or.inr hc))⟩

theorem getNewNews_complete :
    ∀ (ps : List Post) (c : NewsCache) (x : Post) (s : String),
      x ∈ ps → x.id = some s → s ≠ "" → s ∉ c.news_ids →
      ∃ y ∈ (getNewNews c ps).1, y.id = some s := by
  intro ps
  induction ps with
  | nil => intro c x s hx _ _ _; exact absurd hx (List.not_mem_nil x)
  | cons q rest ih =>
    intro c x s hx hid hs hmem
    rcases List.mem_cons.mp hx with hq | hrest
    · subst hq
      refine ⟨x, ?_, hid⟩
      have : (getNewNews c (x :: rest)).1
          = x :: (getNewNews ⟨s :: c.news_ids, c.total_processed + 1⟩ rest).1 := by
        simp [getNewNews, hid, hs, hmem]
      rw [this]
      exact List.mem_cons_self x _
    · cases hqid : q.id with
      | none =>
        rcases ih c x s hrest hid hs hmem with ⟨y, hy, hyid⟩
        refine ⟨y, ?_, hyid⟩
        rw [show getNewNews c (q :: rest) = getNewNews c rest by simp [getNewNews, hqid]]
        exact hy
      | some t =>
        by_cases ht : t = ""
        · rcases ih c x s hrest hid hs hmem with ⟨y, hy, hyid⟩
          refine ⟨y, ?_, hyid⟩
          rw [show getNewNews c (q :: rest) = getNewNews c rest by simp [getNewNews, hqid, ht]]
          exact hy
        · by_cases htm : t ∈ c.news_ids
          · rcases ih c x s hrest hid hs hmem with ⟨y, hy, hyid⟩
            refine ⟨y, ?_, hyid⟩
            rw [show getNewNews c (q :: rest) = getNewNews c rest by
              simp [getNewNews, hqid, ht, htm]]
            exact hy
          · have hsplit : (getNewNews c (q :: rest)).1
                = q :: (getNewNews ⟨t :: c.news_ids, c.total_processed + 1⟩ rest).1 := by
              simp [getNewNews, hqid, ht, htm]
            by_cases hts : t = s
            · refine ⟨q, ?_, by rw [hqid, hts]⟩
              rw [hsplit]
              exact List.mem_cons_self q _
            · have hmem' : s ∉ t :: c.news_ids := by
                intro hc
                rcases List.mem_cons.mp hc with h | h
                · exact hts h.symm
                · exact hmem h
              rcases ih ⟨t :: c.news_ids, c.total_processed + 1⟩ x s hrest hid hs hmem' with
                ⟨y, hy, hyid⟩
              refine ⟨y, ?_, hyid⟩
              rw [hsplit]
              exact List.mem_cons.mpr (Or.inr hy)

theorem getNewNews_total :
    ∀ (ps : List Post) (c : NewsCache),
      (getNewNews c ps).2.total_processed = c.total_processed + (getNewNews c ps).1.length := by
  intro ps
  induction ps with
  | nil => intro c; simp [getNewNews]
  | cons p rest ih =>
    intro c
    cases hid : p.id with
    | none => simpa [getNewNews, hid] using ih c
    | some t =>
      by_cases ht : t = ""
      · simpa [getNewNews, hid, ht] using ih c
      · by_cases hmem : t ∈ c.news_ids
        · simpa [getNewNews, hid, ht, hmem] using ih c
        · have h := ih ⟨t :: c.news_ids, c.total_processed + 1⟩
          simp only [getNewNews, hid, ht, hmem, if_neg, if_pos] at h ⊢
          simp [h]
          omega

theorem getNewNews_ids_from :
    ∀ (ps : List Post) (c : NewsCache) (s : String),
      s ∈ (getNewNews c ps).2.news_ids →
      s ∈ c.news_ids ∨ ∃ x ∈ ps, x.id = some s ∧ s ≠ "" := by
  intro ps
  induction ps with
  | nil => intro c s hs; left; simpa [getNewNews] using hs
  | cons p rest ih =>
    intro c s hs
    have weaken : s ∈ c.news_ids ∨ (∃ x ∈ rest, x.id = some s ∧ s ≠ "") →
        s ∈ c.news_ids ∨ ∃ x ∈ p :: rest, x.id = some s ∧ s ≠ "" := by
      rintro (h | ⟨x, hx, hxs⟩)
      · exact Or.inl h
      · exact Or.inr ⟨x, List.mem_cons.mpr (Or.inr hx), hxs⟩
    cases hid : p.id with
    | none =>
      refine weaken (ih c s ?_)
      simpa [getNewNews, hid] using hs
    | some t =>
      by_cases ht : t = ""
      · refine weaken (ih c s ?_)
        simpa [getNewNews, hid, ht] using hs
      · by_cases hmem : t ∈ c.news_ids
        · refine weaken (ih c s ?_)
          simpa [getNewNews, hid, ht, hmem] using hs
        · have hs' : s ∈ (getNewNews ⟨t :: c.news_ids, c.total_processed + 1⟩ rest).2.news_ids := by
            simpa [getNewNews, hid, ht, hmem] using hs
          rcases ih ⟨t :: c.news_ids, c.total_processed + 1⟩ s hs' with h | ⟨x, hx, hxs⟩
          · rcases List.mem_cons.mp h with h | h
            · exact Or.inr ⟨p, List.mem_cons_self p rest, by rw [hid, ← h], by rw [h]; exact ht⟩
            · exact Or.inl h
          · exact Or.inr ⟨x, List.mem_cons.mpr (Or.inr hx), hxs⟩

/-- C2: filtering for new items converges idempotently.  The first call
returns exactly the batch items whose truthy identifiers were not yet seen
(walking the batch in order, each returned id being added to the seen set on
the way), the returned list preserves the batch's relative order, and an
immediately repeated call on the updated cache returns the empty list. -/
theorem get_new_news_idempotent (c : NewsCache) (B : List Post) :
    (getNewNews (getNewNews c B).2 B).1 = [] ∧
    (getNewNews c B).1.Sublist B ∧
    (∀ x ∈ (getNewNews c B).1, ∃ s, x.id = some s ∧ s ≠ "" ∧ s ∉ c.news_ids) ∧
    (∀ x ∈ B, ∀ s, x.id = some s → s ≠ "" → s ∉ c.news_ids →
      ∃ y ∈ (getNewNews c B).1, y.id = some s) := by
  refine ⟨?_, getNewNews_sublist B c, getNewNews_mem_new B c,
    fun x hx s => getNewNews_complete B c x s hx⟩
  apply getNewNews_fst_nil
  intro p hp s hid hs
  exact getNewNews_covers B c p s hp hid hs

/-- Witness for `get_new_news_idempotent`: a concrete cache that has already
seen `"k"` and a batch with one genuinely new item, one already-seen item and
one id-less item. -/
theorem get_new_news_idempotent_witness :
    (getNewNews
        (getNewNews ⟨["k"], 1⟩
          [⟨some "n", none, none, none, none⟩, ⟨some "k", none, none, none, none⟩,
           ⟨none, some "t", none, none, none⟩]).2
        [⟨some "n", none, none, none, none⟩, ⟨some "k", none, none, none, none⟩,
         ⟨none, some "t", none, none, none⟩]).1 = [] ∧
    (getNewNews ⟨["k"], 1⟩
        [⟨some "n", none, none, none, none⟩, ⟨some "k", none, none, none, none⟩,
         ⟨none, some "t", none, none, none⟩]).1.Sublist
      [⟨some "n", none, none, none, none⟩, ⟨some "k", none, none, none, none⟩,
       ⟨none, some "t", none, none, none⟩] ∧
    (∀ x ∈ (getNewNews ⟨["k"], 1⟩
        [⟨some "n", none, none, none, none⟩, ⟨some "k", none, none, none, none⟩,
         ⟨none, some "t", none, none, none⟩]).1,
      ∃ s, x.id = some s ∧ s ≠ "" ∧ s ∉ (⟨["k"], 1⟩ : NewsCache).news_ids) ∧
    (∀ x ∈ [⟨some "n", none, none, none, none⟩, ⟨some "k", none, none, none, none⟩,
        (⟨none, some "t", none, none, none⟩ : Post)],
      ∀ s, x.id = some s → s ≠ "" → s ∉ (⟨["k"], 1⟩ : NewsCache).news_ids →
      ∃ y ∈ (getNewNews ⟨["k"], 1⟩
          [⟨some "n", none, none, none, none⟩, ⟨some "k", none, none, none, none⟩,
           ⟨none, some "t", none, none, none⟩]).1, y.id = some s) :=
  get_new_news_idempotent ⟨["k"], 1⟩
    [⟨some "n", none, none, none, none⟩, ⟨some "k", none, none, none, none⟩,
     ⟨none, some "t", none, none, none⟩]

/-- C10: `get_new_news` silently skips items with a missing or falsy id.
Every returned item has a truthy id, the seen set only grows by truthy ids
taken from the batch, the processed counter grows by exactly the number of
returned items (so id-less items are never counted), and hence a seen set
holding only truthy ids keeps holding only truthy ids. -/
theorem get_new_news_truthy_ids (c : NewsCache) (B : List Post) :
    (∀ x ∈ (getNewNews c B).1, ∃ s, x.id = some s ∧ s ≠ "") ∧
    (∀ s ∈ (getNewNews c B).2.news_ids,
      s ∈ c.news_ids ∨ ∃ x ∈ B, x.id = some s ∧ s ≠ "") ∧
    (getNewNews c B).2.total_processed = c.total_processed + (getNewNews c B).1.length ∧
    ((∀ s ∈ c.news_ids, s ≠ "") → ∀ s ∈ (getNewNews c B).2.news_ids, s ≠ "") := by
  refine ⟨?_, getNewNews_ids_from B c, getNewNews_total B c, ?_⟩
  · intro x hx
    rcases getNewNews_mem_new B c x hx with ⟨s, hid, hs, _⟩
    exact ⟨s, hid, hs⟩
  · intro hinv s hs
    rcases getNewNews_ids_from B c s hs with h | ⟨x, _, _, hxs⟩
    · exact hinv s h
    · exact hxs

/-- Witness for `get_new_news_truthy_ids` on the same concrete cache and
batch as the C2 witness, with the invariant hypothesis discharged. -/
theorem get_new_news_truthy_ids_witness :
    (∀ x ∈ (getNewNews ⟨["k"], 1⟩
        [⟨some "n", none, none, none, none⟩, ⟨none, some "t", none, none, none⟩]).1,
      ∃ s, x.id = some s ∧ s ≠ "") ∧
    (∀ s ∈ (getNewNews ⟨["k"], 1⟩
        [⟨some "n", none, none, none, none⟩, ⟨none, some "t", none, none, none⟩]).2.news_ids,
      s ≠ "") := by
  refine ⟨(get_new_news_truthy_ids ⟨["k"], 1⟩ _).1, ?_⟩
  exact (get_new_news_truthy_ids ⟨["k"], 1⟩
      [⟨some "n", none, none, none, none⟩, ⟨none, some "t", none, none, none⟩]).2.2.2
    (by decide)

/-!
## C3 and C4: the two-source merge of `NewsAPIClient.fetch_news`
-/

/-- The `post['_source_api'] = src` tagging performed while merging. -/
def tagPost (src : String) (p : Post) : Post := { p with source_api := some src }

/-- The duplicate-removal pass of `fetch_news`: walk the merged list, keep an
item only when its id is truthy and not seen yet, remembering kept ids. -/
def dedupById (seen : List String) : List Post → List Post
  | [] => []
  | p :: rest =>
    match p.id with
    | none => dedupById seen rest
    | some s =>
      if s = "" then dedupById seen rest
      else if s ∈ seen then dedupById seen rest
      else p :: dedupById (s :: seen) rest

/-- Shallow embedding of `NewsAPIClient.fetch_news`: each argument is the
outcome of one source fetch (`none` models a non-200 response, timeout or
exception, all of which surface as a non-dict result that the `isinstance`
check skips).  Each page that did arrive is read back-to-front, tagged with
its origin, community items first, then deduplicated by id. -/
def fetchNews (communityRes newsRes : Option (List Post)) : List Post :=
  let cpart := match communityRes with
    | some ps => ps.reverse.map (tagPost "community")
    | none => []
  let npart := match newsRes with
    | some ps => ps.reverse.map (tagPost "news")
    | none => []
  dedupById [] (cpart ++ npart)

/-- C3: merging a community page `[a1, a2, a3]` with a news page `[b1, b2]`
(both newest-last, all five ids truthy).  With pairwise distinct ids the
result is `[a3, a2, a1, b2, b1]` (each page reversed, community first, each
item tagged with its origin); when `a2` and `b1` share an id (the other ids
distinct) the community occurrence `a2` is retained and the news duplicate
`b1` is dropped. -/
theorem fetch_news_merge_order (a1 a2 a3 b1 b2 : Post) (s1 s2 s3 s4 s5 : String)
    (h1 : a1.id = some s1) (h2 : a2.id = some s2) (h3 : a3.id = some s3)
    (h4 : b1.id = some s4) (h5 : b2.id = some s5)
    (n1 : s1 ≠ "") (n2 : s2 ≠ "") (n3 : s3 ≠ "") (n4 : s4 ≠ "") (n5 : s5 ≠ "")
    (d12 : s1 ≠ s2) (d13 : s1 ≠ s3) (d23 : s2 ≠ s3) (d45 : s4 ≠ s5)
    (e51 : s5 ≠ s1) (e52 : s5 ≠ s2) (e53 : s5 ≠ s3) :
    (s4 ≠ s1 → s4 ≠ s2 → s4 ≠ s3 →
      fetchNews (some [a1, a2, a3]) (some [b1, b2]) =
        [tagPost "community" a3, tagPost "community" a2, tagPost "community" a1,
         tagPost "news" b2, tagPost "news" b1]) ∧
    (s4 = s2 →
      fetchNews (some [a1, a2, a3]) (some [b1, b2]) =
        [tagPost "community" a3, tagPost "community" a2, tagPost "community" a1,
         tagPost "news" b2]) := by
  constructor
  · intro f1 f2 f3
    simp [fetchNews, dedupById, tagPost, h1, h2, h3, h4, h5,
      n1, n2, n3, n4, n5, d12, d13, d23, d45, e51, e52, e53, f1, f2, f3,
      Ne.symm d12, Ne.symm d13, Ne.symm d23]
  · intro f4
    subst f4
    simp [fetchNews, dedupById, tagPost, h1, h2, h3, h4, h5,
      n1, n2, n3, n4, n5, d12, d13, d23, d45, e51, e52, e53,
      Ne.symm d12, Ne.symm d13, Ne.symm d23]

/-- Witness for `fetch_news_merge_order` at two concrete five-item merges,
one with disjoint ids and one where `a2` and `b1` collide. -/
theorem fetch_news_merge_order_witness :
    fetchNews
        (some [⟨some "1", none, none, none, none⟩, ⟨some "2", none, none, none, none⟩,
          ⟨some "3", none, none, none, none⟩])
        (some [⟨some "4", none, none, none, none⟩, ⟨some "5", none, none, none, none⟩]) =
      [tagPost "community" ⟨some "3", none, none, none, none⟩,
       tagPost "community" ⟨some "2", none, none, none, none⟩,
       tagPost "community" ⟨some "1", none, none, none, none⟩,
       tagPost "news" ⟨some "5", none, none, none, none⟩,
       tagPost "news" ⟨some "4", none, none, none, none⟩] ∧
    fetchNews
        (some [⟨some "1", none, none, none, none⟩, ⟨some "2", some "tA", none, none, none⟩,
          ⟨some "3", none, none, none, none⟩])
        (some [⟨some "2", some "tB", none, none, none⟩, ⟨some "5", none, none, none, none⟩]) =
      [tagPost "community" ⟨some "3", none, none, none, none⟩,
       tagPost "community" ⟨some "2", some "tA", none, none, none⟩,
       tagPost "community" ⟨some "1", none, none, none, none⟩,
       tagPost "news" ⟨some "5", none, none, none, none⟩] := by
  constructor
  · exact (fetch_news_merge_order _ _ _ _ _ "1" "2" "3" "4" "5"
      rfl rfl rfl rfl rfl (by decide) (by decide) (by decide) (by decide) (by decide)
      (by decide) (by decide) (by decide) (by decide) (by decide) (by decide)
      (by decide)).1 (by decide) (by decide) (by decide)
  · exact (fetch_news_merge_order _ _ _ _ _ "1" "2" "3" "2" "5"
      rfl rfl rfl rfl rfl (by decide) (by decide) (by decide) (by decide) (by decide)
      (by decide) (by decide) (by decide) (by decide) (by decide) (by decide)
      (by decide)).2 rfl

theorem dedupById_covers :
    ∀ (l : List Post) (seen : List String) (s : String),
      (∃ x ∈ l, x.id = some s) → s ≠ "" → s ∉ seen →
      ∃ q ∈ dedupById seen l, q.id = some s := by
  intro l
  induction l with
  | nil => rintro seen s ⟨x, hx, _⟩ _ _; exact absurd hx (List.not_mem_nil x)
  | cons p rest ih =>
    rintro seen s ⟨x, hx, hxid⟩ hs hseen
    rcases List.mem_cons.mp hx with hxp | hxrest
    · subst hxp
      refine ⟨x, ?_, hxid⟩
      have : dedupById seen (x :: rest) = x :: dedupById (s :: seen) rest := by
        simp [dedupById, hxid, hs, hseen]
      rw [this]
      exact List.mem_cons_self x _
    · cases hpid : p.id with
      | none =>
        rcases ih seen s ⟨x, hxrest, hxid⟩ hs hseen with ⟨q, hq, hqid⟩
        exact ⟨q, by rw [show dedupById seen (p :: rest) = dedupById seen rest by
          simp [dedupById, hpid]]; exact hq, hqid⟩
      | some t =>
        by_cases ht : t = ""
        · rcases ih seen s ⟨x, hxrest, hxid⟩ hs hseen with ⟨q, hq, hqid⟩
          exact ⟨q, by rw [show dedupById seen (p :: rest) = dedupById seen rest by
            simp [dedupById, hpid, ht]]; exact hq, hqid⟩
        · by_cases htm : t ∈ seen
          · rcases ih seen s ⟨x, hxrest, hxid⟩ hs hseen with ⟨q, hq, hqid⟩
            exact ⟨q, by rw [show dedupById seen (p :: rest) = dedupById seen rest by
              simp [dedupById, hpid, ht, htm]]; exact hq, hqid⟩
          · have hsplit : dedupById seen (p :: rest) = p :: dedupById (t :: seen) rest := by
              simp [dedupById, hpid, ht, htm]
            by_cases hts : t = s
            · refine ⟨p, ?_, by rw [hpid, hts]⟩
              rw [hsplit]
              exact List.mem_cons_self p _
            · have hseen' : s ∉ t :: seen := by
                intro hc
                rcases List.mem_cons.mp hc with h | h
                · exact hts h.symm
                · exact hseen h
              rcases ih (t :: seen) s ⟨x, hxrest, hxid⟩ hs hseen' with ⟨q, hq, hqid⟩
              exact ⟨q, by rw [hsplit]; exact List.mem_cons.mpr (Or.inr hq), hqid⟩

/-- The full in-memory cache state that one polling cycle touches. -/
structure CycleState where
  cache : NewsCache
  lastResponse : LastResponse
deriving DecidableEq

/-- Shallow embedding of `NewsHandler.process_and_send_news`, seen as a state
transformer: the two arguments are the source fetch outcomes handed to
`fetch_news` (which always returns a dict, so the `if not data` guard never
fires on a merged result), the returned list holds the new items actually
sent (the `_source_api == 'news'` ones).  If the fingerprint is unchanged the
cycle stops before `get_new_news`. -/
def processAndSendNews (communityRes newsRes : Option (List Post)) (st : CycleState) :
    List Post × CycleState :=
  let posts := fetchNews communityRes newsRes
  let hr := hasResponseChanged st.lastResponse posts
  if hr.1 then
    let r := getNewNews st.cache posts
    (r.1.filter fun p => decide (p.source_api = some "news"), ⟨r.2, hr.2⟩)
  else ([], ⟨st.cache, hr.2⟩)

/-- C4 (amended): source-fetch failures are independent — a failed source
behaves exactly like a source that returned an empty page, and every truthy-id
item of the surviving source still reaches the merge result.  When both
fetches fail the merge is an empty batch and the cycle sends nothing and
leaves the seen-id cache untouched, but the stored fingerprint is NOT left
alone: afterwards it always holds the empty-batch hash (so it does get
overwritten whenever it held anything else). -/
theorem fetch_failure_independent (ps : List Post) (st : CycleState) :
    fetchNews (some ps) none = fetchNews (some ps) (some []) ∧
    fetchNews none (some ps) = fetchNews (some []) (some ps) ∧
    (∀ p ∈ ps, ∀ s, p.id = some s → s ≠ "" →
      (∃ q ∈ fetchNews (some ps) none, q.id = some s) ∧
      (∃ q ∈ fetchNews none (some ps), q.id = some s)) ∧
    (processAndSendNews none none st).1 = [] ∧
    (processAndSendNews none none st).2.cache = st.cache ∧
    (processAndSendNews none none st).2.lastResponse.response_hash
      = some (generateResponseHash []) := by
  refine ⟨rfl, rfl, ?_, ?_⟩
  · intro p hp s hid hs
    have hmemc : ∃ x ∈ ps.reverse.map (tagPost "community"), x.id = some s := by
      refine ⟨tagPost "community" p, ?_, by simp [tagPost, hid]⟩
      exact List.mem_map_of_mem _ (List.mem_reverse.mpr hp)
    have hmemn : ∃ x ∈ ps.reverse.map (tagPost "news"), x.id = some s := by
      refine ⟨tagPost "news" p, ?_, by simp [tagPost, hid]⟩
      exact List.mem_map_of_mem _ (List.mem_reverse.mpr hp)
    constructor
    · have h := dedupById_covers (ps.reverse.map (tagPost "community")) [] s hmemc hs
        (List.not_mem_nil s)
      simpa [fetchNews] using h
    · have h := dedupById_covers (ps.reverse.map (tagPost "news")) [] s hmemn hs
        (List.not_mem_nil s)
      simpa [fetchNews] using h
  · by_cases heq : some (generateResponseHash []) = st.lastResponse.response_hash
    · have hchanged : hasResponseChanged st.lastResponse [] = (false, st.lastResponse) := by
        simp [hasResponseChanged, heq]
      have hrun : processAndSendNews none none st = ([], ⟨st.cache, st.lastResponse⟩) := by
        simp [processAndSendNews, fetchNews, dedupById, hchanged]
      rw [hrun]
      exact ⟨rfl, rfl, heq.symm⟩
    · have hchanged : hasResponseChanged st.lastResponse []
          = (true, ⟨some (generateResponseHash []), 0⟩) := by
        simp [hasResponseChanged, heq]
      have hrun : processAndSendNews none none st
          = ([], ⟨st.cache, ⟨some (generateResponseHash []), 0⟩⟩) := by
        simp [processAndSendNews, fetchNews, dedupById, hchanged, getNewNews]
      rw [hrun]
      exact ⟨rfl, rfl, rfl⟩

/-- Witness for `fetch_failure_independent` at a one-item page and a concrete
cycle state. -/
theorem fetch_failure_independent_witness :
    fetchNews (some [⟨some "x", none, none, none, none⟩]) none
      = fetchNews (some [⟨some "x", none, none, none, none⟩]) (some []) ∧
    (∃ q ∈ fetchNews (some [⟨some "x", none, none, none, none⟩]) none, q.id = some "x") ∧
    (processAndSendNews none none ⟨⟨["x"], 1⟩, ⟨some HashVal.err, 3⟩⟩).1 = [] := by
  refine ⟨(fetch_failure_independent [⟨some "x", none, none, none, none⟩]
    ⟨⟨["x"], 1⟩, ⟨some HashVal.err, 3⟩⟩).1, ?_, ?_⟩
  · exact ((fetch_failure_independent [⟨some "x", none, none, none, none⟩]
      ⟨⟨["x"], 1⟩, ⟨some HashVal.err, 3⟩⟩).2.2.1 _ (List.mem_cons_self _ _) "x" rfl
      (by decide)).1
  · exact (fetch_failure_independent [⟨some "x", none, none, none, none⟩]
      ⟨⟨["x"], 1⟩, ⟨some HashVal.err, 3⟩⟩).2.2.2.1

/-- C4 counterexample: both source fetches fail while the stored fingerprint
holds the hash of an earlier non-empty batch; the cycle then overwrites the
stored fingerprint (with the empty-batch hash), contradicting the claim that
a fully failed cycle performs no stored-fingerprint update. -/
theorem fetch_failure_updates_fingerprint :
    (processAndSendNews none none
        ⟨⟨[], 0⟩, ⟨some (generateResponseHash [⟨some "a", some "t", none, none, none⟩]), 1⟩⟩
      ).2.lastResponse.response_hash
      ≠ some (generateResponseHash [⟨some "a", some "t", none, none, none⟩]) := by
  decide

/-!
## C5: breaking / important / normal classification
-/

/-- A news item as `is_breaking_news` / `is_important_news` read it; missing
fields arrive as the `.get` defaults used at each access site. -/
structure NewsDict where
  title : String
  content : String
  community_tags : List String
  tag_names : List String
  like_count : Nat
  view_count : Nat
deriving DecidableEq

/-- The default `breaking_keywords` of `NewsAPIClient.__init__`. -/
def defaultBreakingKeywords : List String :=
  ["속보", "긴급", "중요", "특보", "긴급속보", "특별속보"]

/-- The fixed `breaking_patterns` of `is_breaking_news`; each regex matches a
literal string (the brackets are escaped in the source), so the patterns are
substring tests.  `re.IGNORECASE` has no effect on these letters. -/
def breakingPatterns : List String :=
  ["[속보]", "[긴급]", "[중요]", "[특보]", "속보:", "긴급:", "중요:", "특보:",
   "🚨", "⚡", "🔥"]

/-- Shallow embedding of `NewsAPIClient.is_breaking_news`. -/
def isBreakingNews (kws : List String) (n : NewsDict) : Bool :=
  kws.any (fun k => containsStr k n.title) ||
  kws.any (fun k => containsStr k n.content) ||
  n.community_tags.any (fun tag => kws.any fun k => containsStr k tag) ||
  n.tag_names.any (fun tag => kws.any fun k => containsStr k tag) ||
  breakingPatterns.any (fun p => containsStr p n.title || containsStr p n.content)

/-- Shallow embedding of `NewsAPIClient.is_important_news`. -/
def isImportantNews (kws : List String) (n : NewsDict) (threshold : Nat)
    (fromNewsApi : Bool) : Bool :=
  if isBreakingNews kws n then true
  else if !fromNewsApi then false
  else decide (threshold ≤ n.like_count) || decide (100 ≤ n.view_count)

inductive NewsType where
  | breaking
  | important
  | normal
deriving DecidableEq

/-- The three-way classification the delivery path applies to each item:
breaking first (`is_breaking_news`), then important (`is_important_news` with
the source flag the handler passes), otherwise normal. -/
def classify (kws : List String) (n : NewsDict) (threshold : Nat)
    (fromNewsApi : Bool) : NewsType :=
  if isBreakingNews kws n then NewsType.breaking
  else if isImportantNews kws n threshold fromNewsApi then NewsType.important
  else NewsType.normal

/-- C5: a breaking item is classified BREAKING whatever its engagement counts
and source flag; a non-breaking item is IMPORTANT exactly when it comes from
the official news source and its like count reaches the threshold or its view
count reaches 100; in particular a non-breaking community item is never
IMPORTANT, and everything else is NORMAL. -/
theorem classification_rules (kws : List String) (n : NewsDict) (threshold : Nat)
    (fromNewsApi : Bool) :
    (isBreakingNews kws n = true →
      ∀ lc vc fa th, classify kws { n with like_count := lc, view_count := vc } th fa
        = NewsType.breaking) ∧
    (isBreakingNews kws n = false →
      (classify kws n threshold fromNewsApi = NewsType.important ↔
        fromNewsApi = true ∧ (threshold ≤ n.like_count ∨ 100 ≤ n.view_count))) ∧
    (isBreakingNews kws n = false → fromNewsApi = false →
      classify kws n threshold fromNewsApi = NewsType.normal) ∧
    (isBreakingNews kws n = false → ¬(threshold ≤ n.like_count ∨ 100 ≤ n.view_count) →
      classify kws n threshold fromNewsApi = NewsType.normal) := by
  have hupd : ∀ lc vc, isBreakingNews kws { n with like_count := lc, view_count := vc }
      = isBreakingNews kws n := fun lc vc => rfl
  refine ⟨?_, ?_, ?_, ?_⟩
  · intro hb lc vc fa th
    simp [classify, hupd, hb]
  · intro hb
    cases fromNewsApi with
    | false => simp [classify, isImportantNews, hb]
    | true =>
      by_cases hl : threshold ≤ n.like_count
      · simp [classify, isImportantNews, hb, hl]
      · by_cases hv : 100 ≤ n.view_count
        · simp [classify, isImportantNews, hb, hl, hv]
        · simp [classify, isImportantNews, hb, hl, hv]
  · intro hb hfa
    subst hfa
    simp [classify, isImportantNews, hb]
  · intro hb hcnt
    rw [not_or] at hcnt
    cases fromNewsApi with
    | false => simp [classify, isImportantNews, hb]
    | true => simp [classify, isImportantNews, hb, hcnt.1, hcnt.2]

/-- Witness for `classification_rules` at the spec's three examples: the
breaking title, the official-source item with like count 6 against threshold
5, and the same item from the community source. -/
theorem classification_rules_witness :
    classify defaultBreakingKeywords ⟨"[속보] 시장 급락", "", [], [], 0, 0⟩ 5 true
      = NewsType.breaking ∧
    classify defaultBreakingKeywords ⟨"일반 소식", "", [], [], 6, 0⟩ 5 true
      = NewsType.important ∧
    classify defaultBreakingKeywords ⟨"일반 소식", "", [], [], 6, 0⟩ 5 false
      = NewsType.normal := by
  refine ⟨?_, ?_, ?_⟩
  · have h := (classification_rules defaultBreakingKeywords
      ⟨"[속보] 시장 급락", "", [], [], 0, 0⟩ 5 true).1 (by decide) 0 0 true 5
    simpa using h
  · exact ((classification_rules defaultBreakingKeywords
      ⟨"일반 소식", "", [], [], 6, 0⟩ 5 true).2.1 (by decide)).mpr ⟨rfl, Or.inl (by decide)⟩
  · exact (classification_rules defaultBreakingKeywords
      ⟨"일반 소식", "", [], [], 6, 0⟩ 5 false).2.2.1 (by decide) rfl

/-!
## C6, C7, C8: the report selection pipeline of `ReportScheduler`
-/

/-- The three-way outcome of reading an item's `created_at` string:
absent/empty (the `if created_at_str` guard skips parsing), present but not
ISO-8601 (`datetime.fromisoformat` raises), or parsed to an epoch-second
timestamp.  Naive local timestamps are modelled as plain integers. -/
inductive CreatedAt where
  | missing
  | invalid (raw : String)
  | valid (epochSec : Int)
deriving DecidableEq

/-- A community post as the report selection reads it, with the `.get`
defaults applied at each access site. -/
structure ReportPost where
  created_at : CreatedAt
  title : String
  content : String
  like_count : Nat
  view_count : Nat
  comment_count : Nat
deriving DecidableEq

/-- The fixed `important_keywords` list of `_calculate_importance_score`. -/
def importantKeywords : List String :=
  ["속보", "긴급", "중요", "특보", "급등", "급락", "폭등", "폭락",
   "ai", "반도체", "테슬라", "애플", "구글", "마이크로소프트", "아마존",
   "nvidia", "amd", "인텔", "삼성", "sk하이닉스", "lg", "현대차",
   "fed", "연준", "금리", "인플레이션", "gdp", "고용지표"]

/-- Python `str.lower`, restricted to ASCII case mapping; every keyword above
is ASCII or Hangul, for which this agrees with Python. -/
def lowerStr (s : String) : String := ⟨s.data.map Char.toLower⟩

/-- The keyword loop of `_calculate_importance_score`: +10 for each keyword of
the fixed list contained in the lower-cased title. -/
def keywordScore (lt : String) : Nat :=
  importantKeywords.foldl (fun acc k => if containsStr k lt then acc + 10 else acc) 0

/-- The recency bonus of `_calculate_importance_score`: +20 when the parsed
timestamp is less than 1800 seconds before `now`; a missing or unparsable
timestamp yields no bonus (the `except: pass`). -/
def recencyBonus (now : Int) : CreatedAt → Nat
  | CreatedAt.valid t => if now - t < 1800 then 20 else 0
  | _ => 0

/-- Shallow embedding of `ReportScheduler._calculate_importance_score`. -/
def importanceScore (now : Int) (p : ReportPost) : Nat :=
  3 * p.like_count + Nat.min (p.view_count / 10) 50 + 2 * p.comment_count
    + keywordScore (lowerStr p.title) + recencyBonus now p.created_at

/-- Claim-side reading (from the spec's words) of "created within the last 30
minutes": a parsed timestamp no later than `now` and less than 1800 seconds
before it. -/
def createdWithinThirtyMin (now : Int) : CreatedAt → Bool
  | CreatedAt.valid t => decide (0 ≤ now - t) && decide (now - t < 1800)
  | _ => false

theorem keyword_foldl_eq_countP (kws : List String) (lt : String) :
    ∀ acc : Nat,
      kws.foldl (fun a k => if containsStr k lt then a + 10 else a) acc
        = acc + 10 * kws.countP (fun k => containsStr k lt) := by
  induction kws with
  | nil => intro acc; simp
  | cons k rest ih =>
    intro acc
    simp only [List.foldl_cons, List.countP_cons]
    by_cases h : containsStr k lt
    · rw [if_pos h, ih (acc + 10), if_pos h]
      omega
    · rw [if_neg h, ih acc, if_neg h]
      omega

/-- The condition under which the code actually grants the +20 recency bonus:
`time_diff.total_seconds() < 1800` — a signed comparison, so any parsed
timestamp less than 30 minutes before `now`, including every timestamp after
`now`, earns the bonus. -/
def recentBonusApplies (now : Int) : CreatedAt → Bool
  | CreatedAt.valid t => decide (now - t < 1800)
  | _ => false

/-- C6 (amended): the importance score equals
`3*like + min(view/10, 50) + 2*comment + 10*(distinct keywords in the
lower-cased title) + a 20-point recency bonus`, where the bonus is granted
exactly when the parsed timestamp satisfies `now - created < 1800` — which
also covers future-dated items — and this coincides with the claim's
"created within the last 30 minutes" exactly for items not dated after
`now`. -/
theorem importance_score_formula (now : Int) (p : ReportPost) :
    (importanceScore now p =
      3 * p.like_count + Nat.min (p.view_count / 10) 50 + 2 * p.comment_count
        + 10 * (importantKeywords.countP fun k => containsStr k (lowerStr p.title))
        + (if recentBonusApplies now p.created_at then 20 else 0)) ∧
    ((∀ t, p.created_at = CreatedAt.valid t → t ≤ now) →
      recentBonusApplies now p.created_at = createdWithinThirtyMin now p.created_at) := by
  constructor
  · unfold importanceScore keywordScore
    rw [keyword_foldl_eq_countP]
    have hrec : recencyBonus now p.created_at
        = (if recentBonusApplies now p.created_at then 20 else 0) := by
      cases p.created_at with
      | missing => simp [recencyBonus, recentBonusApplies]
      | invalid raw => simp [recencyBonus, recentBonusApplies]
      | valid t =>
        by_cases hlt : now - t < 1800
        · simp [recencyBonus, recentBonusApplies, hlt]
        · simp [recencyBonus, recentBonusApplies, hlt]
    rw [hrec]
    omega
  · intro hfut
    cases hca : p.created_at with
    | missing => rfl
    | invalid raw => rfl
    | valid t =>
      have hle : t ≤ now := hfut t hca
      have h0 : (0 : Int) ≤ now - t := by omega
      show decide (now - t < 1800) = (decide (0 ≤ now - t) && decide (now - t < 1800))
      rw [decide_eq_true h0, Bool.true_and]

/-- Witness for `importance_score_formula`: like 10, view 200, comment 4, one
keyword hit in the title, created 600 seconds before `now` — score 88, as the
spec computes; the timestamp is not in the future, so the code's bonus
condition agrees with "created within the last 30 minutes" here. -/
theorem importance_score_formula_witness :
    importanceScore 10000 ⟨CreatedAt.valid 9400, "테슬라 소식", "c", 10, 200, 4⟩ = 88 ∧
    recentBonusApplies 10000 (CreatedAt.valid 9400)
      = createdWithinThirtyMin 10000 (CreatedAt.valid 9400) := by
  have h := importance_score_formula 10000
    ⟨CreatedAt.valid 9400, "테슬라 소식", "c", 10, 200, 4⟩
  constructor
  · rw [h.1]
    decide
  · exact h.2 (by intro t ht; injection ht with ht; omega)

/-- C6 counterexample: a surviving item dated 600 seconds in the future
(realistic, since the code compares a naive-ified UTC timestamp against naive
local `datetime.now()`) is not "created within the last 30 minutes", yet the
code still grants the +20 bonus: its score is 20 where the claim's formula
yields 0. -/
theorem importance_score_future_bonus :
    createdWithinThirtyMin 0 (CreatedAt.valid 600) = false ∧
    importanceScore 0 ⟨CreatedAt.valid 600, "zzz", "c", 0, 0, 0⟩ = 20 ∧
    importanceScore 0 ⟨CreatedAt.valid 600, "zzz", "c", 0, 0, 0⟩ ≠
      3 * 0 + Nat.min (0 / 10) 50 + 2 * 0
        + 10 * (importantKeywords.countP fun k => containsStr k (lowerStr "zzz"))
        + (if createdWithinThirtyMin 0 (CreatedAt.valid 600) then 20 else 0) := by
  refine ⟨?_, ?_, ?_⟩
  · decide
  · decide
  · decide

/-- Python `\s`-style whitespace test for the characters the titles can
contain. -/
def isSpaceChar (c : Char) : Bool :=
  c == ' ' || c == '\t' || c == '\n' || c == '\r'

/-- Python `\w` (word character) test: ASCII alphanumerics, the underscore,
and — as an adequate approximation for the Hangul titles this code
processes — every non-ASCII character. -/
def isWordChar (c : Char) : Bool :=
  c.isAlphanum || c == '_' || decide (128 ≤ c.toNat)

/-- Python `str.strip` on a character list. -/
def stripChars (l : List Char) : List Char :=
  ((l.dropWhile isSpaceChar).reverse.dropWhile isSpaceChar).reverse

/-- Python `str.strip`. -/
def stripStr (s : String) : String := ⟨stripChars s.data⟩

/-- Collapse runs of `' '` to a single `' '` (the effect of
`re.sub(r'\s+', ' ', ...)` after all whitespace has been mapped to `' '`). -/
def dedupSpaces : List Char → List Char
  | [] => []
  | [c] => [c]
  | a :: b :: rest =>
    if a == ' ' && b == ' ' then dedupSpaces (b :: rest)
    else a :: dedupSpaces (b :: rest)

/-- The title normalization of `_filter_and_prioritize_news`:
`re.sub(r'[^\w\s]', '', title.lower())`, then `re.sub(r'\s+', ' ', ...)`,
then `.strip()`. -/
def normalizeTitle (title : String) : String :=
  ⟨stripChars (dedupSpaces ((lowerStr title).data.filterMap fun c =>
    if isWordChar c then some c
    else if isSpaceChar c then some ' '
    else none))⟩

/-- The body-duplicate key `hash(content[:100]) if content else 0`: the Python
string hash is modelled injectively by the first hundred characters
themselves, the `0` of the empty-content branch by a separate constructor. -/
inductive ContentKey where
  | empty
  | firstHundred (s : String)
deriving DecidableEq

def contentKey (content : String) : ContentKey :=
  if content = "" then ContentKey.empty
  else ContentKey.firstHundred ⟨content.data.take 100⟩

/-- Does the time filter (plus the surrounding `try`) discard this item?  A
parseable timestamp older than the cutoff is dropped by the explicit check; an
unparsable one raises inside the `try`, whose handler `continue`s past the
item; a missing or empty one skips the check and survives. -/
def timeFilterDrop (cutoff : Int) : CreatedAt → Bool
  | CreatedAt.missing => false
  | CreatedAt.invalid _ => true
  | CreatedAt.valid t => decide (t < cutoff)

/-- The scan loop of `_filter_and_prioritize_news`: `seenT`/`seenC` are the
`seen_titles`/`seen_content_hashes` sets, `count` the survivors accumulated so
far; the loop `break`s as soon as the count reaches `maxN` (checked right
after an item is appended). -/
def selectSurvivors (maxN : Nat) (cutoff : Int) :
    List ReportPost → List String → List ContentKey → Nat → List ReportPost
  | [], _, _, _ => []
  | p :: rest, seenT, seenC, count =>
    if timeFilterDrop cutoff p.created_at then
      selectSurvivors maxN cutoff rest seenT seenC count
    else if stripStr p.title = "" then
      selectSurvivors maxN cutoff rest seenT seenC count
    else if normalizeTitle (stripStr p.title) ∈ seenT then
      selectSurvivors maxN cutoff rest seenT seenC count
    else if contentKey p.content ∈ seenC then
      selectSurvivors maxN cutoff rest seenT seenC count
    else
      p :: (if maxN ≤ count + 1 then []
        else selectSurvivors maxN cutoff rest
          (normalizeTitle (stripStr p.title) :: seenT)
          (contentKey p.content :: seenC) (count + 1))

/-- Descending order by importance score; equal scores keep the scan order,
matching Python's stable `sort(key=..., reverse=True)`. -/
def reportScoreGe (now : Int) (a b : ReportPost) : Prop :=
  importanceScore now b ≤ importanceScore now a

instance (now : Int) : DecidableRel (reportScoreGe now) := fun _ _ => Nat.decLe _ _

instance (now : Int) : IsTotal ReportPost (reportScoreGe now) :=
  ⟨fun a b => Nat.le_total (importanceScore now b) (importanceScore now a)⟩

instance (now : Int) : IsTrans ReportPost (reportScoreGe now) :=
  ⟨fun _ _ _ h1 h2 => Nat.le_trans h2 h1⟩

/-- Shallow embedding of `ReportScheduler._filter_and_prioritize_news`:
scan with the 2-hour cutoff (`now - 7200` seconds) and early break, then sort
the survivors by importance score descending and truncate to the configured
maximum again. -/
def filterAndPrioritizeNews (maxN : Nat) (now : Int) (posts : List ReportPost) :
    List ReportPost :=
  (List.insertionSort (reportScoreGe now) (selectSurvivors maxN (now - 7200) posts [] [] 0)).take
    maxN

theorem selectSurvivors_append (maxN : Nat) (cutoff : Int) (extra : List ReportPost) :
    ∀ (posts : List ReportPost) (seenT : List String) (seenC : List ContentKey) (count : Nat),
      count < maxN →
      (selectSurvivors maxN cutoff posts seenT seenC count).length + count = maxN →
      selectSurvivors maxN cutoff (posts ++ extra) seenT seenC count
        = selectSurvivors maxN cutoff posts seenT seenC count := by
  intro posts
  induction posts with
  | nil =>
    intro seenT seenC count hlt hlen
    rw [show selectSurvivors maxN cutoff [] seenT seenC count = [] from rfl] at hlen
    simp at hlen
    omega
  | cons p rest ih =>
    intro seenT seenC count hlt hlen
    by_cases h1 : timeFilterDrop cutoff p.created_at
    · have e : selectSurvivors maxN cutoff (p :: rest) seenT seenC count
          = selectSurvivors maxN cutoff rest seenT seenC count := by
        simp [selectSurvivors, h1]
      have e2 : selectSurvivors maxN cutoff ((p :: rest) ++ extra) seenT seenC count
          = selectSurvivors maxN cutoff (rest ++ extra) seenT seenC count := by
        simp [selectSurvivors, h1]
      rw [e] at hlen
      rw [e2, e, ih seenT seenC count hlt hlen]
    · by_cases h2 : stripStr p.title = ""
      · have e : selectSurvivors maxN cutoff (p :: rest) seenT seenC count
            = selectSurvivors maxN cutoff rest seenT seenC count := by
          simp [selectSurvivors, h1, h2]
        have e2 : selectSurvivors maxN cutoff ((p :: rest) ++ extra) seenT seenC count
            = selectSurvivors maxN cutoff (rest ++ extra) seenT seenC count := by
          simp [selectSurvivors, h1, h2]
        rw [e] at hlen
        rw [e2, e, ih seenT seenC count hlt hlen]
      · by_cases h3 : normalizeTitle (stripStr p.title) ∈ seenT
        · have e : selectSurvivors maxN cutoff (p :: rest) seenT seenC count
              = selectSurvivors maxN cutoff rest seenT seenC count := by
            simp [selectSurvivors, h1, h2, h3]
          have e2 : selectSurvivors maxN cutoff ((p :: rest) ++ extra) seenT seenC count
              = selectSurvivors maxN cutoff (rest ++ extra) seenT seenC count := by
            simp [selectSurvivors, h1, h2, h3]
          rw [e] at hlen
          rw [e2, e, ih seenT seenC count hlt hlen]
        · by_cases h4 : contentKey p.content ∈ seenC
          · have e : selectSurvivors maxN cutoff (p :: rest) seenT seenC count
                = selectSurvivors maxN cutoff rest seenT seenC count := by
              simp [selectSurvivors, h1, h2, h3, h4]
            have e2 : selectSurvivors maxN cutoff ((p :: rest) ++ extra) seenT seenC count
                = selectSurvivors maxN cutoff (rest ++ extra) seenT seenC count := by
              simp [selectSurvivors, h1, h2, h3, h4]
            rw [e] at hlen
            rw [e2, e, ih seenT seenC count hlt hlen]
          · by_cases h5 : maxN ≤ count + 1
            · have e : selectSurvivors maxN cutoff (p :: rest) seenT seenC count = [p] := by
                simp [selectSurvivors, h1, h2, h3, h4, h5]
              have e2 : selectSurvivors maxN cutoff ((p :: rest) ++ extra) seenT seenC count
                  = [p] := by
                simp [selectSurvivors, h1, h2, h3, h4, h5]
              rw [e2, e]
            · have e : selectSurvivors maxN cutoff (p :: rest) seenT seenC count
                  = p :: selectSurvivors maxN cutoff rest
                      (normalizeTitle (stripStr p.title) :: seenT)
                      (contentKey p.content :: seenC) (count + 1) := by
                simp [selectSurvivors, h1, h2, h3, h4, h5]
              have e2 : selectSurvivors maxN cutoff ((p :: rest) ++ extra) seenT seenC count
                  = p :: selectSurvivors maxN cutoff (rest ++ extra)
                      (normalizeTitle (stripStr p.title) :: seenT)
                      (contentKey p.content :: seenC) (count + 1) := by
                simp [selectSurvivors, h1, h2, h3, h4, h5]
              rw [e] at hlen
              simp only [List.length_cons] at hlen
              rw [e2, e, ih (normalizeTitle (stripStr p.title) :: seenT)
                (contentKey p.content :: seenC) (count + 1) (by omega) (by omega)]

theorem selectSurvivors_mem (maxN : Nat) (cutoff : Int) :
    ∀ (posts : List ReportPost) (seenT : List String) (seenC : List ContentKey) (count : Nat)
      (x : ReportPost), x ∈ selectSurvivors maxN cutoff posts seenT seenC count →
      timeFilterDrop cutoff x.created_at = false := by
  intro posts
  induction posts with
  | nil =>
    intro seenT seenC count x hx
    rw [show selectSurvivors maxN cutoff [] seenT seenC count = [] from rfl] at hx
    exact absurd hx (List.not_mem_nil x)
  | cons p rest ih =>
    intro seenT seenC count x hx
    by_cases h1 : timeFilterDrop cutoff p.created_at
    · rw [show selectSurvivors maxN cutoff (p :: rest) seenT seenC count
          = selectSurvivors maxN cutoff rest seenT seenC count by
        simp [selectSurvivors, h1]] at hx
      exact ih seenT seenC count x hx
    · by_cases h2 : stripStr p.title = ""
      · rw [show selectSurvivors maxN cutoff (p :: rest) seenT seenC count
            = selectSurvivors maxN cutoff rest seenT seenC count by
          simp [selectSurvivors, h1, h2]] at hx
        exact ih seenT seenC count x hx
      · by_cases h3 : normalizeTitle (stripStr p.title) ∈ seenT
        · rw [show selectSurvivors maxN cutoff (p :: rest) seenT seenC count
              = selectSurvivors maxN cutoff rest seenT seenC count by
            simp [selectSurvivors, h1, h2, h3]] at hx
          exact ih seenT seenC count x hx
        · by_cases h4 : contentKey p.content ∈ seenC
          · rw [show selectSurvivors maxN cutoff (p :: rest) seenT seenC count
                = selectSurvivors maxN cutoff rest seenT seenC count by
              simp [selectSurvivors, h1, h2, h3, h4]] at hx
            exact ih seenT seenC count x hx
          · rw [show selectSurvivors maxN cutoff (p :: rest) seenT seenC count
                = p :: (if maxN ≤ count + 1 then []
                  else selectSurvivors maxN cutoff rest
                    (normalizeTitle (stripStr p.title) :: seenT)
                    (contentKey p.content :: seenC) (count + 1)) by
              simp [selectSurvivors, h1, h2, h3, h4]] at hx
            rcases List.mem_cons.mp hx with hxp | hxr
            · subst hxp
              simpa using h1
            · by_cases h5 : maxN ≤ count + 1
              · rw [if_pos h5] at hxr
                exact absurd hxr (List.not_mem_nil x)
              · rw [if_neg h5] at hxr
                exact ih _ _ _ x hxr

/-- C7: report selection returns at most the configured maximum of items,
sorted by importance score descending, and the scan over the raw page is
short-circuited: once the accumulated survivors reach the maximum, any items
appended after that point in the page change nothing, whatever their
scores. -/
theorem report_selection_shape (maxN : Nat) (now : Int) (posts extra : List ReportPost) :
    (filterAndPrioritizeNews maxN now posts).length ≤ maxN ∧
    (filterAndPrioritizeNews maxN now posts).Pairwise
      (fun a b => importanceScore now b ≤ importanceScore now a) ∧
    ((selectSurvivors maxN (now - 7200) posts [] [] 0).length = maxN → 1 ≤ maxN →
      filterAndPrioritizeNews maxN now (posts ++ extra)
        = filterAndPrioritizeNews maxN now posts) := by
  refine ⟨List.length_take_le maxN _, ?_, ?_⟩
  · exact List.Pairwise.sublist (List.take_sublist maxN _)
      (List.sorted_insertionSort (reportScoreGe now) _)
  · intro hlen hpos
    unfold filterAndPrioritizeNews
    rw [selectSurvivors_append maxN (now - 7200) extra posts [] [] 0 (by omega) (by omega)]

/-- Witness for `report_selection_shape`: with a maximum of 1 the scan over a
two-item page already holds 1 survivor, so appending a third, much
higher-scoring item does not change the output. -/
theorem report_selection_shape_witness :
    filterAndPrioritizeNews 1 0
        ([⟨CreatedAt.missing, "alpha", "aaa", 0, 0, 0⟩,
          ⟨CreatedAt.missing, "beta", "bbb", 0, 0, 0⟩] ++
         [⟨CreatedAt.missing, "gamma", "ccc", 99, 0, 0⟩])
      = filterAndPrioritizeNews 1 0
        [⟨CreatedAt.missing, "alpha", "aaa", 0, 0, 0⟩,
         ⟨CreatedAt.missing, "beta", "bbb", 0, 0, 0⟩] :=
  (report_selection_shape 1 0
    [⟨CreatedAt.missing, "alpha", "aaa", 0, 0, 0⟩, ⟨CreatedAt.missing, "beta", "bbb", 0, 0, 0⟩]
    [⟨CreatedAt.missing, "gamma", "ccc", 99, 0, 0⟩]).2.2 (by decide) (by decide)

/-- C8 (amended): every selected item passed the time filter — a parsed
timestamp is never older than the 2-hour cutoff, and an unparsable timestamp
never survives (the parse error is caught and the item skipped, so such items
are dropped, not kept); an item with a missing or empty timestamp does pass
the time filter and proceeds to the duplicate checks (it heads the survivor
list when its title and content are fresh). -/
theorem report_time_filter (maxN : Nat) (now : Int) (posts : List ReportPost) :
    (∀ x ∈ filterAndPrioritizeNews maxN now posts,
      (∀ t, x.created_at = CreatedAt.valid t → now - 7200 ≤ t) ∧
      (∀ raw, x.created_at ≠ CreatedAt.invalid raw)) ∧
    (∀ (p : ReportPost) (rest : List ReportPost) (seenT : List String)
        (seenC : List ContentKey) (count : Nat),
      p.created_at = CreatedAt.missing →
      stripStr p.title ≠ "" →
      normalizeTitle (stripStr p.title) ∉ seenT →
      contentKey p.content ∉ seenC →
      ∃ tail, selectSurvivors maxN (now - 7200) (p :: rest) seenT seenC count = p :: tail) := by
  constructor
  · intro x hx
    have hmem : x ∈ selectSurvivors maxN (now - 7200) posts [] [] 0 := by
      have h1 : x ∈ List.insertionSort (reportScoreGe now)
          (selectSurvivors maxN (now - 7200) posts [] [] 0) :=
        List.mem_of_mem_take hx
      exact (List.perm_insertionSort (reportScoreGe now) _).subset h1
    have hdrop := selectSurvivors_mem maxN (now - 7200) posts [] [] 0 x hmem
    constructor
    · intro t ht
      rw [ht] at hdrop
      simp [timeFilterDrop] at hdrop
      omega
    · intro raw hc
      rw [hc] at hdrop
      simp [timeFilterDrop] at hdrop
  · intro p rest seenT seenC count hmiss htitle hT hC
    refine ⟨if maxN ≤ count + 1 then []
      else selectSurvivors maxN (now - 7200) rest
        (normalizeTitle (stripStr p.title) :: seenT)
        (contentKey p.content :: seenC) (count + 1), ?_⟩
    simp [selectSurvivors, timeFilterDrop, hmiss, htitle, hT, hC]

/-- Witness for `report_time_filter`: the first conjunct at a page holding one
stale item, and the second at a missing-timestamp item with a fresh title. -/
theorem report_time_filter_witness :
    (∀ x ∈ filterAndPrioritizeNews 30 0 [⟨CreatedAt.valid (-99999), "old", "o", 0, 0, 0⟩],
      (∀ t, x.created_at = CreatedAt.valid t → (0 : Int) - 7200 ≤ t) ∧
      (∀ raw, x.created_at ≠ CreatedAt.invalid raw)) ∧
    (∃ tail, selectSurvivors 30 ((0 : Int) - 7200)
        [⟨CreatedAt.missing, "fresh title", "f", 0, 0, 0⟩] [] [] 0
      = ⟨CreatedAt.missing, "fresh title", "f", 0, 0, 0⟩ :: tail) :=
  ⟨(report_time_filter 30 0 [⟨CreatedAt.valid (-99999), "old", "o", 0, 0, 0⟩]).1,
   (report_time_filter 30 0 [⟨CreatedAt.missing, "fresh title", "f", 0, 0, 0⟩]).2
     ⟨CreatedAt.missing, "fresh title", "f", 0, 0, 0⟩ [] [] [] 0 rfl (by decide) (by decide)
     (by decide)⟩

/-- C8 counterexample: an item whose `created_at` cannot be parsed is dropped
by the selection pass (the claim says it is kept): with a fresh, nonempty
title and room to spare it still never reaches the output. -/
theorem report_unparsable_timestamp_dropped :
    (⟨CreatedAt.invalid "busted", "good title", "body", 0, 0, 0⟩ : ReportPost).created_at
      = CreatedAt.invalid "busted" ∧
    filterAndPrioritizeNews 30 0
      [⟨CreatedAt.invalid "busted", "good title", "body", 0, 0, 0⟩] = [] := by
  constructor
  · rfl
  · decide

/-!
## C9: market-data stale-fallback of `MarketDataCollector`
-/

/-- The `chart.result[0].meta` fields `get_nasdaq_price` reads (with its
`.get` defaults).  Prices are modelled as integers: the claim is about the
cache/stale control flow, not about decimal arithmetic, so the 2-digit
rounding of the display values is not modelled. -/
structure NasdaqMeta where
  regularMarketPrice : Int
  previousClose : Int
  marketState : String
  currency : String
deriving DecidableEq

/-- The parsed nasdaq record `get_nasdaq_price` builds and caches (its
`timestamp` display field is omitted; `change_percent` uses integer
division in place of float division, which the claim does not touch). -/
structure NasdaqQuote where
  current_price : Int
  change : Int
  change_percent : Int
  previous_close : Int
  market_state : String
  currency : String
  stale : Bool
deriving DecidableEq

def parseNasdaqMeta (m : NasdaqMeta) : NasdaqQuote :=
  { current_price := m.regularMarketPrice
  , change := m.regularMarketPrice - m.previousClose
  , change_percent :=
      if m.previousClose ≠ 0 then
        ((m.regularMarketPrice - m.previousClose) * 100) / m.previousClose
      else 0
  , previous_close := m.previousClose
  , market_state := m.marketState
  , currency := m.currency
  , stale := false }

/-- The `cached = dict(cache); cached['stale'] = True` copy served on a failed
refresh. -/
def setStaleNasdaq (q : NasdaqQuote) : NasdaqQuote := { q with stale := true }

/-- Shallow embedding of `MarketDataCollector.get_nasdaq_price` as a function
of the two endpoint outcomes and the current cache, returning the value
handed to the caller together with the cache afterwards.  `none` for an
endpoint models `_request_with_backoff` returning `None` after exhausted
retries or a non-transient status (or a falsy JSON body); `some l` carries
the `chart.result` list of an arriving body.  The fallback endpoint is only
consulted when the primary outcome is `None`. -/
def getNasdaqPrice (primaryRes fallbackRes : Option (List NasdaqMeta))
    (cache : Option NasdaqQuote) : Option NasdaqQuote × Option NasdaqQuote :=
  let data := match primaryRes with
    | some d => some d
    | none => fallbackRes
  match data with
  | some (m :: _) => (some (parseNasdaqMeta m), some (parseNasdaqMeta m))
  | some [] =>
    match cache with
    | some q => (some (setStaleNasdaq q), some q)
    | none => (none, none)
  | none =>
    match cache with
    | some q => (some (setStaleNasdaq q), some q)
    | none => (none, none)

/-- One entry of the alternative.me `data` list, already parsed (`value` is
an integer; its textual form and the timestamp formatting are not what the
claim concerns). -/
structure FngEntry where
  value : Int
  value_classification : String
deriving DecidableEq

structure FngQuote where
  value : Int
  classification : String
  stale : Bool
deriving DecidableEq

def parseFngEntry (e : FngEntry) : FngQuote :=
  { value := e.value, classification := e.value_classification, stale := false }

def setStaleFng (q : FngQuote) : FngQuote := { q with stale := true }

/-- Shallow embedding of `MarketDataCollector.get_fear_greed_index` (this
indicator has a single endpoint and no fallback). -/
def getFearGreedIndex (res : Option (List FngEntry)) (cache : Option FngQuote) :
    Option FngQuote × Option FngQuote :=
  match res with
  | some (e :: _) => (some (parseFngEntry e), some (parseFngEntry e))
  | some [] =>
    match cache with
    | some q => (some (setStaleFng q), some q)
    | none => (none, none)
  | none =>
    match cache with
    | some q => (some (setStaleFng q), some q)
    | none => (none, none)

/-- C9: for each indicator independently, a totally failed fetch returns the
cached value with its stale flag set (and no value at all when no cache
exists) while leaving the cache untouched; a successful fetch returns a
non-stale value and overwrites the cache; the cache is only ever overwritten
by a successful fetch. -/
theorem market_stale_fallback (p f : Option (List NasdaqMeta)) (c : Option NasdaqQuote)
    (r : Option (List FngEntry)) (cf : Option FngQuote) :
    (p = none → f = none → getNasdaqPrice p f c = (c.map setStaleNasdaq, c)) ∧
    (∀ q, c = some q → (setStaleNasdaq q).stale = true) ∧
    (∀ m rest, p = some (m :: rest) →
      getNasdaqPrice p f c = (some (parseNasdaqMeta m), some (parseNasdaqMeta m)) ∧
      (parseNasdaqMeta m).stale = false) ∧
    ((getNasdaqPrice p f c).2 = c ∨
      ∃ m, (getNasdaqPrice p f c).2 = some (parseNasdaqMeta m) ∧
        (getNasdaqPrice p f c).1 = some (parseNasdaqMeta m)) ∧
    (r = none → getFearGreedIndex r cf = (cf.map setStaleFng, cf)) ∧
    (∀ e rest, r = some (e :: rest) →
      getFearGreedIndex r cf = (some (parseFngEntry e), some (parseFngEntry e)) ∧
      (parseFngEntry e).stale = false) ∧
    ((getFearGreedIndex r cf).2 = cf ∨
      ∃ e, (getFearGreedIndex r cf).2 = some (parseFngEntry e) ∧
        (getFearGreedIndex r cf).1 = some (parseFngEntry e)) := by
  refine ⟨?_, ?_, ?_, ?_, ?_, ?_, ?_⟩
  · intro hp hf
    subst hp; subst hf
    cases c with
    | none => rfl
    | some q => rfl
  · intro q _
    rfl
  · intro m rest hp
    subst hp
    exact ⟨rfl, rfl⟩
  · cases p with
    | some d =>
      cases d with
      | nil => cases c with
        | none => left; rfl
        | some q => left; rfl
      | cons m ms => right; exact ⟨m, rfl, rfl⟩
    | none =>
      cases f with
      | some d =>
        cases d with
        | nil => cases c with
          | none => left; rfl
          | some q => left; rfl
        | cons m ms => right; exact ⟨m, rfl, rfl⟩
      | none => cases c with
        | none => left; rfl
        | some q => left; rfl
  · intro hr
    subst hr
    cases cf with
    | none => rfl
    | some q => rfl
  · intro e rest hr
    subst hr
    exact ⟨rfl, rfl⟩
  · cases r with
    | some d =>
      cases d with
      | nil => cases cf with
        | none => left; rfl
        | some q => left; rfl
      | cons e es => right; exact ⟨e, rfl, rfl⟩
    | none => cases cf with
      | none => left; rfl
      | some q => left; rfl

/-- Witness for `market_stale_fallback`: a populated cache with both nasdaq
endpoints failing (stale fallback), and a successful fetch overwriting the
cache with a non-stale value. -/
theorem market_stale_fallback_witness :
    getNasdaqPrice none none (some ⟨100, 1, 9, 99, "CLOSED", "USD", false⟩)
      = (some ⟨100, 1, 9, 99, "CLOSED", "USD", true⟩,
         some ⟨100, 1, 9, 99, "CLOSED", "USD", false⟩) ∧
    getNasdaqPrice (some [⟨200, 100, "REGULAR", "USD"⟩]) none none
      = (some (parseNasdaqMeta ⟨200, 100, "REGULAR", "USD"⟩),
         some (parseNasdaqMeta ⟨200, 100, "REGULAR", "USD"⟩)) ∧
    getFearGreedIndex none none = (none, none) := by
  refine ⟨?_, ?_, ?_⟩
  · exact (market_stale_fallback none none (some ⟨100, 1, 9, 99, "CLOSED", "USD", false⟩)
      none none).1 rfl rfl
  · exact ((market_stale_fallback (some [⟨200, 100, "REGULAR", "USD"⟩]) none none
      none none).2.2.1 ⟨200, 100, "REGULAR", "USD"⟩ [] rfl).1
  · exact (market_stale_fallback none none none none none).2.2.2.2.1 rfl
